import Mathlib

/-!
A shallow embedding of the `chamt` reclamation engine (`src/gc.rs`) and of
the pieces of the map layer the gc code depends on.

Conventions of the embedding:
* `u64` values are modelled as `Nat`; the only u64 arithmetic that can
  overflow here is `fetch_add(1)` in `Epoch::drop`, where we take `% 2^64`.
* A Rust `Vec` used as a LIFO stack is modelled as a `List` with the stack
  top (the `Vec`'s end) at the head: `push` is cons, `pop` takes the head.
  This applies to the five pools and to `reclaims`, so the reverse-index
  scan of `garbage_collect` walks the modelled list front to back.
* `older`/`newer` record insertion order head-first as well; draining them
  from the vector's end is `List.foldr`.
* Atomic cells are passed as explicit values: `swing` receives the current
  value stored at `loc` and returns the value the location holds afterwards.
-/

namespace Chamt

/-- Modelled from the spec: `Item` lives in `src/map.rs`, which is missing
from the sources; §3 describes it as a `(key, value)` pair, and
`map_test.rs` uses `Item { key, value }` with 32-bit keys and clonable
values. Keys and values are modelled as `Nat`; `Item::default()` is the
derived default, all fields zero. -/
structure Item where
  key : Nat
  value : Nat
deriving DecidableEq, Repr

def Item.default : Item := { key := 0, value := 0 }

/-- Modelled from the spec: `Child` lives in `src/map.rs`, which is missing
from the sources; §3 describes it as a wrapper whose single field is an
atomic pointer to a `Node`. The pointer is modelled as a `Nat` address;
`Child::default()` holds the null address. -/
structure Child where
  pointer : Nat
deriving DecidableEq, Repr

def Child.default : Child := { pointer := 0 }

/-- Modelled from the spec: `Node` lives in `src/map.rs`, which is missing
from the sources; §3 gives the three variants
`Trie { bmp: u16, childs: Vec<Child> }`, `List { items: Vec<Item> }` and
`Tomb { item: Item }`, matching the patterns `gc.rs` matches on. -/
inductive Node where
  | trie (bmp : Nat) (childs : List Child)
  | list (items : List Item)
  | tomb (item : Item)
deriving DecidableEq, Repr

/-- `Mem<K, V>` from `src/gc.rs`: a raw pointer to a detached `Child` or
`Node`, as handed to `free_on_pass` / `free_on_fail`. In the embedding the
pointee itself stands for the pointer. -/
inductive Mem where
  | child (c : Child)
  | node (n : Node)
deriving DecidableEq, Repr

/-- `OwnedMem<K, V>` from `src/gc.rs`: an owned box of detached memory
pending reclamation (the `None` variant is `OwnedMem::default()`). -/
inductive OwnedMem where
  | child (c : Child)
  | node (n : Node)
  | none
deriving DecidableEq, Repr

/-- `Reclaim<K, V>` from `src/gc.rs`: a bin of detached memory stamped with
the epoch at which it was retired; `Reclaim::default()` has no stamp and no
items. -/
structure Reclaim where
  epoch : Option Nat
  items : List OwnedMem
deriving DecidableEq, Repr

/-- `MAX_POOL_SIZE` from `src/gc.rs`. -/
def MAX_POOL_SIZE : Nat := 1024

/-- `ENTER_MASK` from `src/gc.rs`. -/
def ENTER_MASK : Nat := 0x8000000000000000

/-- `EPOCH_MASK` from `src/gc.rs`. -/
def EPOCH_MASK : Nat := 0x7FFFFFFFFFFFFFFF

/-- The owned state of `Cas<K, V>` from `src/gc.rs`: the three staging
vectors, the five pools, and the two counters. -/
structure Cas where
  reclaims : List Reclaim
  older : List OwnedMem
  newer : List OwnedMem
  child_pool : List Child
  node_trie_pool : List Node
  node_list_pool : List Node
  node_tomb_pool : List Node
  reclaim_pool : List Reclaim
  n_allocs : Nat
  n_frees : Nat
deriving DecidableEq, Repr

/-- `Cas::new()`: empty vectors, zero counters (capacity hints dropped). -/
def Cas.new : Cas where
  reclaims := []
  older := []
  newer := []
  child_pool := []
  node_trie_pool := []
  node_list_pool := []
  node_tomb_pool := []
  reclaim_pool := []
  n_allocs := 0
  n_frees := 0

/-- `Cas::to_pools_len`. -/
def Cas.to_pools_len (s : Cas) : Nat :=
  s.child_pool.length + s.node_trie_pool.length + s.node_list_pool.length
    + s.node_tomb_pool.length + s.reclaim_pool.length

/-- `Cas::has_reclaims`. -/
def Cas.has_reclaims (s : Cas) : Bool :=
  s.reclaims.length > 0

/-- `Cas::free_on_pass`: take ownership of the raw pointer and stage it on
`older`. -/
def Cas.free_on_pass (s : Cas) (m : Mem) : Cas :=
  match m with
  | Mem.child c => { s with older := s.older ++ [OwnedMem.child c] }
  | Mem.node n => { s with older := s.older ++ [OwnedMem.node n] }

/-- `Cas::free_on_fail`: take ownership of the raw pointer and stage it on
`newer`. -/
def Cas.free_on_fail (s : Cas) (m : Mem) : Cas :=
  match m with
  | Mem.child c => { s with newer := s.newer ++ [OwnedMem.child c] }
  | Mem.node n => { s with newer := s.newer ++ [OwnedMem.node n] }

/-- `Cas::alloc_node`: pop from the variant's pool, or heap-allocate a
fresh node and count the allocation. The `_ => unreachable!()` arm is the
`none` result. -/
def Cas.alloc_node (variant : Char) (s : Cas) : Option (Node × Cas) :=
  match variant with
  | 'l' =>
    match s.node_list_pool with
    | val :: rest => some (val, { s with node_list_pool := rest })
    | [] => some (Node.list [], { s with n_allocs := s.n_allocs + 1 })
  | 't' =>
    match s.node_trie_pool with
    | val :: rest => some (val, { s with node_trie_pool := rest })
    | [] => some (Node.trie 0 [], { s with n_allocs := s.n_allocs + 1 })
  | 'b' =>
    match s.node_tomb_pool with
    | val :: rest => some (val, { s with node_tomb_pool := rest })
    | [] => some (Node.tomb Item.default, { s with n_allocs := s.n_allocs + 1 })
  | _ => none

/-- `Cas::alloc_child`. -/
def Cas.alloc_child (s : Cas) : Child × Cas :=
  match s.child_pool with
  | val :: rest => (val, { s with child_pool := rest })
  | [] => (Child.default, { s with n_allocs := s.n_allocs + 1 })

/-- `Cas::alloc_reclaim`. -/
def Cas.alloc_reclaim (s : Cas) : Reclaim × Cas :=
  match s.reclaim_pool with
  | val :: rest => (val, { s with reclaim_pool := rest })
  | [] => ({ epoch := none, items := [] }, { s with n_allocs := s.n_allocs + 1 })

/-- `Cas::free_node`: reset the variant's mutable state (`bmp`/`childs` for
a trie, `items` for a list, nothing for a tomb), then push into the
variant's pool if it is under `MAX_POOL_SIZE`, else drop and count the
free. -/
def Cas.free_node (node : Node) (s : Cas) : Cas :=
  match node with
  | Node.trie _ _ =>
    if s.node_trie_pool.length < MAX_POOL_SIZE then
      { s with node_trie_pool := Node.trie 0 [] :: s.node_trie_pool }
    else
      { s with n_frees := s.n_frees + 1 }
  | Node.list _ =>
    if s.node_list_pool.length < MAX_POOL_SIZE then
      { s with node_list_pool := Node.list [] :: s.node_list_pool }
    else
      { s with n_frees := s.n_frees + 1 }
  | Node.tomb item =>
    if s.node_tomb_pool.length < MAX_POOL_SIZE then
      { s with node_tomb_pool := Node.tomb item :: s.node_tomb_pool }
    else
      { s with n_frees := s.n_frees + 1 }

/-- `Cas::free_child`. -/
def Cas.free_child (child : Child) (s : Cas) : Cas :=
  if s.child_pool.length < MAX_POOL_SIZE then
    { s with child_pool := child :: s.child_pool }
  else
    { s with n_frees := s.n_frees + 1 }

/-- `Cas::free_reclaim`. -/
def Cas.free_reclaim (reclaim : Reclaim) (s : Cas) : Cas :=
  if s.reclaim_pool.length < MAX_POOL_SIZE then
    { s with reclaim_pool := reclaim :: s.reclaim_pool }
  else
    { s with n_frees := s.n_frees + 1 }

/-- The `match om { OwnedMem::Child => free_child, OwnedMem::Node =>
free_node, OwnedMem::None => () }` dispatcher shared by `swing`'s failure
arm and `garbage_collect`. -/
def freeOwned (om : OwnedMem) (s : Cas) : Cas :=
  match om with
  | OwnedMem.child val => Cas.free_child val s
  | OwnedMem.node val => Cas.free_node val s
  | OwnedMem.none => s

/-- `Cas::swing(epoch, loc, old, new)`. `locVal` is the value currently
stored at `loc`, `epochVal` the value `epoch.load(SeqCst)` returns; the
result carries the CAS outcome and the value `loc` holds afterwards. -/
def Cas.swing (epochVal locVal old new : Nat) (s : Cas) : Bool × Nat × Cas :=
  if locVal = old then
    let (_, s1) := s.alloc_reclaim
    let r : Reclaim := { epoch := some epochVal, items := s1.older }
    let s2 := { s1 with reclaims := r :: s1.reclaims, older := [] }
    let s3 := { s2 with newer := [] }
    (true, new, s3)
  else
    let s1 := { s with older := [] }
    let s2 := List.foldr freeOwned { s1 with newer := [] } s1.newer
    (false, locVal, s2)

/-- Whether `garbage_collect(gc_epoch)` drains a bin: stamped, and stamped
strictly before the cutoff. -/
def shouldDrain (gc_epoch : Nat) (r : Reclaim) : Bool :=
  match r.epoch with
  | some epoch => epoch < gc_epoch
  | none => false

/-- The loop body of `Cas::garbage_collect`, walking `reclaims` from the
most recently pushed bin (the highest `Vec` index, scanned first by
`for i in (0..n).rev()`) to the oldest. A drained bin has its items popped
off the end one by one and pool-returned, its stamp cleared, and is then
pool-returned itself; other bins stay. -/
def gcAux (gc_epoch : Nat) : List Reclaim → Cas → List Reclaim × Cas
  | [], s => ([], s)
  | r :: rest, s =>
    if shouldDrain gc_epoch r then
      let s1 := List.foldr freeOwned s r.items
      let s2 := Cas.free_reclaim { epoch := none, items := [] } s1
      gcAux gc_epoch rest s2
    else
      let (kept, s') := gcAux gc_epoch rest s
      (r :: kept, s')

/-- `Cas::garbage_collect(gc_epoch)`. -/
def Cas.garbage_collect (gc_epoch : Nat) (s : Cas) : Cas :=
  let (kept, s') := gcAux gc_epoch s.reclaims s
  { s' with reclaims := kept }

/-- The per-access `Epoch` beacon state: the shared `global` epoch counter
and this access's `at` cell (`my_at` in the spec), both `u64` atomics. -/
structure EpochState where
  epoch : Nat
  my_at : Nat
deriving DecidableEq, Repr

/-- `Epoch::new(epoch, at, ..)`: store `epoch.load(SeqCst) | ENTER_MASK`
into `at`. -/
def EpochState.enter (s : EpochState) : EpochState :=
  { s with my_at := Nat.lor s.epoch ENTER_MASK }

/-- `impl Drop for Epoch`: store `epoch.load(SeqCst)` into `at`, then
`epoch.fetch_add(1, SeqCst)` (wrapping at 2^64). -/
def EpochState.exit (s : EpochState) : EpochState :=
  { epoch := (s.epoch + 1) % 2 ^ 64, my_at := s.epoch }

/-- Binary population count, peeling one low bit per step; the first
argument is fuel, and `n` halvings always suffice for `n`. -/
def popcountAux : Nat → Nat → Nat
  | 0, _ => 0
  | fuel + 1, n => if n = 0 then 0 else n % 2 + popcountAux fuel (n / 2)

/-- Population count of a natural number's binary representation
(`count_ones` on the Rust side). -/
def popcount (n : Nat) : Nat := popcountAux n n

/-- `Distance` from `src/map.rs` (missing from the sources; its shape is
fixed by `map_test.rs`): `Set(usize)` when the slot is occupied,
`Insert(usize)` when it is empty. -/
inductive Distance where
  | set (offset : Nat)
  | insert (offset : Nat)
deriving DecidableEq, Repr

/-- Modelled from the spec: `hamming_distance` lives in `src/map.rs`, which
is missing from the sources (only its test is present). Spec §4.C, the core
contract used by the map: `offset = popcount(bmp & ((1 << w) - 1))`; if
`bmp & (1 << w)` is zero return `Insert(offset)`, else `Set(offset)`. -/
def hamming_distance (w : Nat) (bmp : Nat) : Distance :=
  let offset := popcount (bmp &&& ((1 <<< w) - 1))
  if bmp &&& (1 <<< w) = 0 then
    Distance.insert offset
  else
    Distance.set offset

/-- One call into the `Cas` allocator/reclamation interface, used to range
over every sequence of operations a thread can perform on its sidecar. -/
inductive CasCall where
  | allocNode (variant : Char)
  | allocChild
  | allocReclaim
  | freeNode (node : Node)
  | freeChild (child : Child)
  | freeReclaim (reclaim : Reclaim)
  | freeOnPass (m : Mem)
  | freeOnFail (m : Mem)
  | swing (epochVal locVal old new : Nat)
  | garbageCollect (gc_epoch : Nat)

/-- Apply one `CasCall` to the sidecar state, discarding any returned
value. -/
def applyCall (s : Cas) : CasCall → Cas
  | CasCall.allocNode variant =>
    match Cas.alloc_node variant s with
    | some (_, s') => s'
    | none => s
  | CasCall.allocChild => s.alloc_child.2
  | CasCall.allocReclaim => s.alloc_reclaim.2
  | CasCall.freeNode node => Cas.free_node node s
  | CasCall.freeChild child => Cas.free_child child s
  | CasCall.freeReclaim reclaim => Cas.free_reclaim reclaim s
  | CasCall.freeOnPass m => s.free_on_pass m
  | CasCall.freeOnFail m => s.free_on_fail m
  | CasCall.swing epochVal locVal old new => (Cas.swing epochVal locVal old new s).2.2
  | CasCall.garbageCollect gc_epoch => Cas.garbage_collect gc_epoch s

/-- Run a sequence of calls against a sidecar state, first call first. -/
def applyCalls (calls : List CasCall) (s : Cas) : Cas :=
  calls.foldl applyCall s

/-- Every pool of the sidecar is within the 1024-entry cap. -/
def PoolsBounded (s : Cas) : Prop :=
  s.child_pool.length ≤ MAX_POOL_SIZE
    ∧ s.node_trie_pool.length ≤ MAX_POOL_SIZE
    ∧ s.node_list_pool.length ≤ MAX_POOL_SIZE
    ∧ s.node_tomb_pool.length ≤ MAX_POOL_SIZE
    ∧ s.reclaim_pool.length ≤ MAX_POOL_SIZE

/-- The state the three `debug_assert!`s of `impl Drop for Cas` require:
`older`, `newer` and `reclaims` all empty. -/
def dropSafe (s : Cas) : Prop :=
  s.older = [] ∧ s.newer = [] ∧ s.reclaims = []

/-- Every node sitting in a node pool is in its post-`free_node` shape: a
pooled trie has `bmp = 0` and no children, a pooled list has no items, a
pooled tomb is a tomb of some (not necessarily default) item. -/
def FreshPools (s : Cas) : Prop :=
  (∀ n ∈ s.node_trie_pool, n = Node.trie 0 [])
    ∧ (∀ n ∈ s.node_list_pool, n = Node.list [])
    ∧ (∀ n ∈ s.node_tomb_pool, ∃ item, n = Node.tomb item)

/-- Draining one reclaim bin: pool-return its items from the end, then
pool-return the cleared bin itself. -/
def drainBin (s : Cas) (r : Reclaim) : Cas :=
  Cas.free_reclaim { epoch := none, items := [] } (List.foldr freeOwned s r.items)

/-- The running invariant of a sidecar: pools within the cap and pooled
nodes in their post-`free_node` shape. -/
def Inv (s : Cas) : Prop :=
  PoolsBounded s ∧ FreshPools s

/-!  ### Plumbing lemmas: which fields each pool operation leaves alone  -/

theorem free_child_older (c : Child) (s : Cas) : (Cas.free_child c s).older = s.older := by
  unfold Cas.free_child; split <;> rfl

theorem free_child_newer (c : Child) (s : Cas) : (Cas.free_child c s).newer = s.newer := by
  unfold Cas.free_child; split <;> rfl

theorem free_child_reclaims (c : Child) (s : Cas) :
    (Cas.free_child c s).reclaims = s.reclaims := by
  unfold Cas.free_child; split <;> rfl

theorem free_node_older (n : Node) (s : Cas) : (Cas.free_node n s).older = s.older := by
  unfold Cas.free_node; cases n <;> dsimp only <;> split <;> rfl

theorem free_node_newer (n : Node) (s : Cas) : (Cas.free_node n s).newer = s.newer := by
  unfold Cas.free_node; cases n <;> dsimp only <;> split <;> rfl

theorem free_node_reclaims (n : Node) (s : Cas) :
    (Cas.free_node n s).reclaims = s.reclaims := by
  unfold Cas.free_node; cases n <;> dsimp only <;> split <;> rfl

theorem free_reclaim_older (r : Reclaim) (s : Cas) :
    (Cas.free_reclaim r s).older = s.older := by
  unfold Cas.free_reclaim; split <;> rfl

theorem free_reclaim_newer (r : Reclaim) (s : Cas) :
    (Cas.free_reclaim r s).newer = s.newer := by
  unfold Cas.free_reclaim; split <;> rfl

theorem free_reclaim_reclaims (r : Reclaim) (s : Cas) :
    (Cas.free_reclaim r s).reclaims = s.reclaims := by
  unfold Cas.free_reclaim; split <;> rfl

theorem freeOwned_older (om : OwnedMem) (s : Cas) : (freeOwned om s).older = s.older := by
  cases om <;> simp only [freeOwned, free_child_older, free_node_older]

theorem freeOwned_newer (om : OwnedMem) (s : Cas) : (freeOwned om s).newer = s.newer := by
  cases om <;> simp only [freeOwned, free_child_newer, free_node_newer]

theorem freeOwned_reclaims (om : OwnedMem) (s : Cas) :
    (freeOwned om s).reclaims = s.reclaims := by
  cases om <;> simp only [freeOwned, free_child_reclaims, free_node_reclaims]

theorem foldr_freeOwned_older (l : List OwnedMem) (s : Cas) :
    (List.foldr freeOwned s l).older = s.older := by
  induction l with
  | nil => rfl
  | cons om rest ih => rw [List.foldr_cons, freeOwned_older, ih]

theorem foldr_freeOwned_newer (l : List OwnedMem) (s : Cas) :
    (List.foldr freeOwned s l).newer = s.newer := by
  induction l with
  | nil => rfl
  | cons om rest ih => rw [List.foldr_cons, freeOwned_newer, ih]

theorem foldr_freeOwned_reclaims (l : List OwnedMem) (s : Cas) :
    (List.foldr freeOwned s l).reclaims = s.reclaims := by
  induction l with
  | nil => rfl
  | cons om rest ih => rw [List.foldr_cons, freeOwned_reclaims, ih]

theorem drainBin_older (s : Cas) (r : Reclaim) : (drainBin s r).older = s.older := by
  unfold drainBin; rw [free_reclaim_older, foldr_freeOwned_older]

theorem drainBin_newer (s : Cas) (r : Reclaim) : (drainBin s r).newer = s.newer := by
  unfold drainBin; rw [free_reclaim_newer, foldr_freeOwned_newer]

theorem drainBin_reclaims (s : Cas) (r : Reclaim) :
    (drainBin s r).reclaims = s.reclaims := by
  unfold drainBin; rw [free_reclaim_reclaims, foldr_freeOwned_reclaims]

/-- The reverse scan of `garbage_collect`, characterised: the surviving
bins are exactly those `shouldDrain` rejects, in order, and the sidecar
accumulates the drains of exactly the bins `shouldDrain` accepts, most
recently pushed first. -/
theorem gcAux_eq (gc_epoch : Nat) (l : List Reclaim) (s : Cas) :
    gcAux gc_epoch l s =
      (l.filter (fun r => !shouldDrain gc_epoch r),
        (l.filter (fun r => shouldDrain gc_epoch r)).foldl drainBin s) := by
  induction l generalizing s with
  | nil => rfl
  | cons r rest ih =>
    by_cases h : shouldDrain gc_epoch r
    · rw [gcAux, if_pos h]
      simp only [List.filter_cons, h, Bool.not_true, ite_false, if_pos, List.foldl_cons]
      exact ih (drainBin s r)
    · rw [gcAux, if_neg h]
      simp only [List.filter_cons, Bool.not_eq_true] at h
      simp only [List.filter_cons, h, Bool.not_false, Bool.false_eq_true, ite_true, ite_false,
        List.foldl_cons, ih s]

/-- `garbage_collect`, restated through `gcAux_eq`. -/
theorem garbage_collect_eq (gc_epoch : Nat) (s : Cas) :
    Cas.garbage_collect gc_epoch s =
      { (s.reclaims.filter (fun r => shouldDrain gc_epoch r)).foldl drainBin s with
          reclaims := s.reclaims.filter (fun r => !shouldDrain gc_epoch r) } := by
  unfold Cas.garbage_collect
  rw [gcAux_eq]

theorem foldl_drainBin_older (l : List Reclaim) (s : Cas) :
    (l.foldl drainBin s).older = s.older := by
  induction l generalizing s with
  | nil => rfl
  | cons r rest ih => rw [List.foldl_cons, ih, drainBin_older]

theorem foldl_drainBin_newer (l : List Reclaim) (s : Cas) :
    (l.foldl drainBin s).newer = s.newer := by
  induction l generalizing s with
  | nil => rfl
  | cons r rest ih => rw [List.foldl_cons, ih, drainBin_newer]

theorem garbage_collect_older (gc_epoch : Nat) (s : Cas) :
    (Cas.garbage_collect gc_epoch s).older = s.older := by
  rw [garbage_collect_eq]; exact foldl_drainBin_older _ _

theorem garbage_collect_newer (gc_epoch : Nat) (s : Cas) :
    (Cas.garbage_collect gc_epoch s).newer = s.newer := by
  rw [garbage_collect_eq]; exact foldl_drainBin_newer _ _

theorem swing_older_nil (epochVal locVal old new : Nat) (s : Cas) :
    (Cas.swing epochVal locVal old new s).2.2.older = [] := by
  unfold Cas.swing
  split
  · rfl
  · exact foldr_freeOwned_older _ _

theorem swing_newer_nil (epochVal locVal old new : Nat) (s : Cas) :
    (Cas.swing epochVal locVal old new s).2.2.newer = [] := by
  unfold Cas.swing
  split
  · rfl
  · exact foldr_freeOwned_newer _ _

/-- C1: when `swing(epoch, loc, old, new)` finds `loc` equal to `old` it
stores `new` into `loc`, allocates one `Reclaim` bin (through
`alloc_reclaim`) stamped with the epoch value read at that moment, moves
the whole `older` vector into the bin, pushes the bin onto `reclaims`,
leaks every `newer` entry (no pool is touched, no free is counted), and
returns `true`. -/
theorem swing_pass_commits (epochVal locVal old new : Nat) (s : Cas)
    (h : locVal = old) :
    Cas.swing epochVal locVal old new s =
      (true, new,
        { (Cas.alloc_reclaim s).2 with
            reclaims := { epoch := some epochVal, items := s.older } :: s.reclaims,
            older := [], newer := [] }) := by
  unfold Cas.swing
  rw [if_pos h]
  rcases hp : s.reclaim_pool with _ | ⟨r, rest⟩ <;> simp [Cas.alloc_reclaim, hp]

/-- Witness for C1 at a concrete sidecar state. -/
theorem swing_pass_commits_witness :
    Cas.swing 7 5 5 9
        { Cas.new with older := [OwnedMem.node (Node.list [{ key := 1, value := 2 }])] } =
      (true, 9,
        { (Cas.alloc_reclaim
              { Cas.new with
                  older := [OwnedMem.node (Node.list [{ key := 1, value := 2 }])] }).2 with
            reclaims :=
              [{ epoch := some 7,
                 items := [OwnedMem.node (Node.list [{ key := 1, value := 2 }])] }],
            older := [], newer := [] }) :=
  swing_pass_commits 7 5 5 9 _ rfl

/-- C2: when `swing(epoch, loc, old, new)` finds `loc` different from
`old` it leaves `loc` unchanged, leaks every `older` entry, pool-returns
every `newer` entry from the vector's end (`Child` entries through
`free_child`, `Node` entries through `free_node`, inside `freeOwned`),
allocates no reclaim bin, and returns `false`. -/
theorem swing_fail_rolls_back (epochVal locVal old new : Nat) (s : Cas)
    (h : locVal ≠ old) :
    Cas.swing epochVal locVal old new s =
      (false, locVal, List.foldr freeOwned { s with older := [], newer := [] } s.newer)
    ∧ (Cas.swing epochVal locVal old new s).2.2.reclaims = s.reclaims := by
  refine ⟨?_, ?_⟩
  · unfold Cas.swing
    rw [if_neg h]
  · unfold Cas.swing
    rw [if_neg h]
    exact foldr_freeOwned_reclaims _ _

/-- Witness for C2 at a concrete sidecar state. -/
theorem swing_fail_rolls_back_witness :
    Cas.swing 7 6 5 9
        { Cas.new with
            older := [OwnedMem.node (Node.list [{ key := 1, value := 2 }])],
            newer := [OwnedMem.child { pointer := 3 }] } =
      (false, 6,
        List.foldr freeOwned
          { { Cas.new with
                older := [OwnedMem.node (Node.list [{ key := 1, value := 2 }])],
                newer := [OwnedMem.child { pointer := 3 }] } with
              older := [], newer := [] }
          [OwnedMem.child { pointer := 3 }]) :=
  (swing_fail_rolls_back 7 6 5 9 _ (by decide)).1

/-- C4: `Epoch::new(global, at, ..)` stores `global.load() | ENTER_MASK`
into `at` (so the enter flag, bit 63, is set) without touching the global
counter; dropping the `Epoch` stores `global.load()` into `at` (clearing
the enter flag and recording the most recently observed epoch) and then
increments the global counter by exactly 1 (wrapping at 2^64, as
`fetch_add` does). -/
theorem epoch_enter_exit (s : EpochState) :
    s.enter.my_at = Nat.lor s.epoch ENTER_MASK
    ∧ s.enter.epoch = s.epoch
    ∧ Nat.testBit s.enter.my_at 63 = true
    ∧ s.exit.my_at = s.epoch
    ∧ s.exit.epoch = (s.epoch + 1) % 2 ^ 64
    ∧ (s.epoch + 1 < 2 ^ 64 → s.exit.epoch = s.epoch + 1)
    ∧ (s.epoch < 2 ^ 63 → Nat.testBit s.enter.exit.my_at 63 = false) := by
  refine ⟨rfl, rfl, ?_, rfl, rfl, ?_, ?_⟩
  · show (s.epoch ||| ENTER_MASK).testBit 63 = true
    rw [Nat.testBit_lor]
    have : ENTER_MASK.testBit 63 = true := by decide
    rw [this, Bool.or_true]
  · intro h
    exact Nat.mod_eq_of_lt h
  · intro h
    exact Nat.testBit_lt_two_pow h

/-- Witness for C4 at a concrete beacon state. -/
theorem epoch_enter_exit_witness :
    Nat.testBit (EpochState.enter { epoch := 5, my_at := 0 }).my_at 63 = true
    ∧ (EpochState.exit { epoch := 5, my_at := 0 }).epoch = 5 + 1
    ∧ Nat.testBit (EpochState.exit (EpochState.enter { epoch := 5, my_at := 0 })).my_at 63
        = false :=
  ⟨(epoch_enter_exit { epoch := 5, my_at := 0 }).2.2.1,
    (epoch_enter_exit { epoch := 5, my_at := 0 }).2.2.2.2.2.1 (by norm_num),
    (epoch_enter_exit { epoch := 5, my_at := 0 }).2.2.2.2.2.2 (by norm_num)⟩

/-- C3: `garbage_collect(gc_epoch)` removes exactly the bins stamped
strictly below `gc_epoch`, pool-returning each removed bin's items and
then the bin itself (`drainBin`), and leaves every bin stamped at or above
`gc_epoch`, or unstamped, in place and in order; in particular when every
bin is stamped below `gc_epoch`, `reclaims` is left empty. -/
theorem garbage_collect_drains (gc_epoch : Nat) (s : Cas) :
    Cas.garbage_collect gc_epoch s =
      { (s.reclaims.filter (fun r => shouldDrain gc_epoch r)).foldl drainBin s with
          reclaims := s.reclaims.filter (fun r => !shouldDrain gc_epoch r) }
    ∧ ((∀ r ∈ s.reclaims, shouldDrain gc_epoch r = true) →
        (Cas.garbage_collect gc_epoch s).reclaims = []) := by
  refine ⟨garbage_collect_eq gc_epoch s, fun h => ?_⟩
  rw [garbage_collect_eq]
  show List.filter _ _ = []
  refine List.filter_eq_nil_iff.2 fun r hr => ?_
  rw [h r hr]
  decide

/-- Witness for C3: a single bin stamped 0 is fully drained by a GC at
cutoff 1. -/
theorem garbage_collect_drains_witness :
    (Cas.garbage_collect 1
        { Cas.new with
            reclaims := [{ epoch := some 0, items := [OwnedMem.child { pointer := 3 }] }] }).reclaims
      = [] :=
  (garbage_collect_drains 1
      { Cas.new with
          reclaims := [{ epoch := some 0, items := [OwnedMem.child { pointer := 3 }] }] }).2
    (by decide)

/-- C10: `garbage_collect` is idempotent — a second call at the same
cutoff leaves the whole sidecar (reclaim bins, all five pools, both
counters) exactly as the first call left it. -/
theorem garbage_collect_idempotent (gc_epoch : Nat) (s : Cas) :
    Cas.garbage_collect gc_epoch (Cas.garbage_collect gc_epoch s)
      = Cas.garbage_collect gc_epoch s := by
  have hkept : ∀ r ∈ (Cas.garbage_collect gc_epoch s).reclaims,
      shouldDrain gc_epoch r = false := by
    intro r hr
    rw [garbage_collect_eq] at hr
    simp only [List.mem_filter, Bool.not_eq_true'] at hr
    exact hr.2
  conv_lhs => rw [garbage_collect_eq]
  have h1 : (Cas.garbage_collect gc_epoch s).reclaims.filter
      (fun r => shouldDrain gc_epoch r) = [] := by
    refine List.filter_eq_nil_iff.2 fun r hr => ?_
    rw [hkept r hr]
    decide
  have h2 : (Cas.garbage_collect gc_epoch s).reclaims.filter
      (fun r => !shouldDrain gc_epoch r) = (Cas.garbage_collect gc_epoch s).reclaims := by
    refine List.filter_eq_self.2 fun r hr => ?_
    rw [hkept r hr]
    decide
  rw [h1, h2, List.foldl_nil]

/-- C8: once a `swing` has resolved the staging vectors and a
`garbage_collect` whose cutoff is past every remaining stamp has drained
the bins, the sidecar satisfies all three `debug_assert!`s of
`impl Drop for Cas`: `older`, `newer` and `reclaims` are empty. -/
theorem swing_then_gc_drop_safe (epochVal locVal old new gc_epoch : Nat) (s : Cas)
    (h : ∀ r ∈ (Cas.swing epochVal locVal old new s).2.2.reclaims,
        shouldDrain gc_epoch r = true) :
    dropSafe (Cas.garbage_collect gc_epoch (Cas.swing epochVal locVal old new s).2.2) := by
  refine ⟨?_, ?_, ?_⟩
  · rw [garbage_collect_older]
    exact swing_older_nil epochVal locVal old new s
  · rw [garbage_collect_newer]
    exact swing_newer_nil epochVal locVal old new s
  · exact (garbage_collect_drains gc_epoch _).2 h

/-- Witness for C8: a successful swing on a fresh sidecar followed by a GC
at cutoff 1 (past the bin's stamp 0) leaves a drop-safe state. -/
theorem swing_then_gc_drop_safe_witness :
    dropSafe (Cas.garbage_collect 1 (Cas.swing 0 0 0 1 Cas.new).2.2) :=
  swing_then_gc_drop_safe 0 0 0 1 1 Cas.new (by decide)

/-- C7: for every slot `w` in `0..16` and 16-bit bitmap `bmp`,
`hamming_distance` returns `Insert(popcount(bmp & ((1 << w) - 1)))` when
bit `w` of `bmp` is clear and `Set` of the same offset when it is set; in
particular `hamming_distance(0, 0xaaaa) = Insert(0)`,
`hamming_distance(1, 0xaaaa) = Set(0)` and
`hamming_distance(3, 0x5555) = Insert(2)`. -/
theorem hamming_distance_spec (w bmp : Nat) (_hw : w < 16) (_hb : bmp < 2 ^ 16) :
    (hamming_distance w bmp =
        if bmp.testBit w then Distance.set (popcount (bmp &&& (2 ^ w - 1)))
        else Distance.insert (popcount (bmp &&& (2 ^ w - 1))))
    ∧ hamming_distance 0 0xaaaa = Distance.insert 0
    ∧ hamming_distance 1 0xaaaa = Distance.set 0
    ∧ hamming_distance 3 0x5555 = Distance.insert 2 := by
  refine ⟨?_, by decide, by decide, by decide⟩
  simp only [hamming_distance, Nat.one_shiftLeft, Nat.and_two_pow]
  cases hbit : bmp.testBit w with
  | false => simp
  | true =>
    have h2 : (0 : Nat) < 2 ^ w := Nat.pos_pow_of_pos w (by omega)
    simp [Nat.ne_of_gt h2]

/-- Witness for C7 at `w = 2`, `bmp = 0xaaaa`. -/
theorem hamming_distance_spec_witness :
    hamming_distance 2 0xaaaa =
      if Nat.testBit 0xaaaa 2 then Distance.set (popcount (0xaaaa &&& (2 ^ 2 - 1)))
      else Distance.insert (popcount (0xaaaa &&& (2 ^ 2 - 1))) :=
  (hamming_distance_spec 2 0xaaaa (by decide) (by decide)).1

/-!  ### Invariant preservation across the sidecar interface  -/

theorem free_child_inv (c : Child) (s : Cas) (h : Inv s) : Inv (Cas.free_child c s) := by
  obtain ⟨⟨b1, b2, b3, b4, b5⟩, f1, f2, f3⟩ := h
  unfold Cas.free_child
  split
  next hlen =>
    refine ⟨⟨?_, b2, b3, b4, b5⟩, f1, f2, f3⟩
    simp only [List.length_cons]
    omega
  next => exact ⟨⟨b1, b2, b3, b4, b5⟩, f1, f2, f3⟩

theorem free_reclaim_inv (r : Reclaim) (s : Cas) (h : Inv s) :
    Inv (Cas.free_reclaim r s) := by
  obtain ⟨⟨b1, b2, b3, b4, b5⟩, f1, f2, f3⟩ := h
  unfold Cas.free_reclaim
  split
  next hlen =>
    refine ⟨⟨b1, b2, b3, b4, ?_⟩, f1, f2, f3⟩
    simp only [List.length_cons]
    omega
  next => exact ⟨⟨b1, b2, b3, b4, b5⟩, f1, f2, f3⟩

theorem free_node_inv (n : Node) (s : Cas) (h : Inv s) : Inv (Cas.free_node n s) := by
  obtain ⟨⟨b1, b2, b3, b4, b5⟩, f1, f2, f3⟩ := h
  unfold Cas.free_node
  cases n with
  | trie bmp childs =>
    dsimp only
    split
    next hlen =>
      refine ⟨⟨b1, ?_, b3, b4, b5⟩, ?_, f2, f3⟩
      · simp only [List.length_cons]
        omega
      · intro m hm
        rcases List.mem_cons.1 hm with h | h
        · exact h
        · exact f1 m h
    next => exact ⟨⟨b1, b2, b3, b4, b5⟩, f1, f2, f3⟩
  | list items =>
    dsimp only
    split
    next hlen =>
      refine ⟨⟨b1, b2, ?_, b4, b5⟩, f1, ?_, f3⟩
      · simp only [List.length_cons]
        omega
      · intro m hm
        rcases List.mem_cons.1 hm with h | h
        · exact h
        · exact f2 m h
    next => exact ⟨⟨b1, b2, b3, b4, b5⟩, f1, f2, f3⟩
  | tomb item =>
    dsimp only
    split
    next hlen =>
      refine ⟨⟨b1, b2, b3, ?_, b5⟩, f1, f2, ?_⟩
      · simp only [List.length_cons]
        omega
      · intro m hm
        rcases List.mem_cons.1 hm with h | h
        · exact ⟨item, h⟩
        · exact f3 m h
    next => exact ⟨⟨b1, b2, b3, b4, b5⟩, f1, f2, f3⟩

theorem freeOwned_inv (om : OwnedMem) (s : Cas) (h : Inv s) : Inv (freeOwned om s) := by
  cases om with
  | child c => exact free_child_inv c s h
  | node n => exact free_node_inv n s h
  | none => exact h

theorem foldr_freeOwned_inv (l : List OwnedMem) (s : Cas) (h : Inv s) :
    Inv (List.foldr freeOwned s l) := by
  induction l with
  | nil => exact h
  | cons om rest ih => exact freeOwned_inv om _ ih

theorem drainBin_inv (s : Cas) (r : Reclaim) (h : Inv s) : Inv (drainBin s r) :=
  free_reclaim_inv _ _ (foldr_freeOwned_inv _ _ h)

theorem foldl_drainBin_inv (l : List Reclaim) (s : Cas) (h : Inv s) :
    Inv (l.foldl drainBin s) := by
  induction l generalizing s with
  | nil => exact h
  | cons r rest ih => exact ih _ (drainBin_inv s r h)

theorem garbage_collect_inv (gc_epoch : Nat) (s : Cas) (h : Inv s) :
    Inv (Cas.garbage_collect gc_epoch s) := by
  rw [garbage_collect_eq]
  exact foldl_drainBin_inv _ _ h

theorem alloc_child_inv (s : Cas) (h : Inv s) : Inv s.alloc_child.2 := by
  obtain ⟨⟨b1, b2, b3, b4, b5⟩, f1, f2, f3⟩ := h
  unfold Cas.alloc_child
  rcases hp : s.child_pool with _ | ⟨c, rest⟩
  · refine ⟨⟨?_, b2, b3, b4, b5⟩, f1, f2, f3⟩
    show ([] : List Child).length ≤ MAX_POOL_SIZE
    decide
  · rw [hp] at b1
    simp only [List.length_cons] at b1
    refine ⟨⟨?_, b2, b3, b4, b5⟩, f1, f2, f3⟩
    show rest.length ≤ MAX_POOL_SIZE
    omega

theorem alloc_reclaim_inv (s : Cas) (h : Inv s) : Inv s.alloc_reclaim.2 := by
  obtain ⟨⟨b1, b2, b3, b4, b5⟩, f1, f2, f3⟩ := h
  unfold Cas.alloc_reclaim
  rcases hp : s.reclaim_pool with _ | ⟨r, rest⟩
  · refine ⟨⟨b1, b2, b3, b4, ?_⟩, f1, f2, f3⟩
    show ([] : List Reclaim).length ≤ MAX_POOL_SIZE
    decide
  · rw [hp] at b5
    simp only [List.length_cons] at b5
    refine ⟨⟨b1, b2, b3, b4, ?_⟩, f1, f2, f3⟩
    show rest.length ≤ MAX_POOL_SIZE
    omega

theorem alloc_node_inv (variant : Char) (s : Cas) (h : Inv s) (nd : Node) (s' : Cas)
    (heq : Cas.alloc_node variant s = some (nd, s')) : Inv s' := by
  obtain ⟨⟨b1, b2, b3, b4, b5⟩, f1, f2, f3⟩ := h
  unfold Cas.alloc_node at heq
  split at heq
  · rcases hp : s.node_list_pool with _ | ⟨v, rest⟩ <;> rw [hp] at heq b3 f2 <;>
      simp only [Option.some.injEq, Prod.mk.injEq] at heq <;>
      obtain ⟨-, rfl⟩ := heq
    · exact ⟨⟨b1, b2, b3, b4, b5⟩, f1, f2, f3⟩
    · simp only [List.length_cons] at b3
      exact ⟨⟨b1, b2, show rest.length ≤ MAX_POOL_SIZE by omega, b4, b5⟩, f1,
        fun n hn => f2 n (List.mem_cons_of_mem _ hn), f3⟩
  · rcases hp : s.node_trie_pool with _ | ⟨v, rest⟩ <;> rw [hp] at heq b2 f1 <;>
      simp only [Option.some.injEq, Prod.mk.injEq] at heq <;>
      obtain ⟨-, rfl⟩ := heq
    · exact ⟨⟨b1, b2, b3, b4, b5⟩, f1, f2, f3⟩
    · simp only [List.length_cons] at b2
      exact ⟨⟨b1, show rest.length ≤ MAX_POOL_SIZE by omega, b3, b4, b5⟩,
        fun n hn => f1 n (List.mem_cons_of_mem _ hn), f2, f3⟩
  · rcases hp : s.node_tomb_pool with _ | ⟨v, rest⟩ <;> rw [hp] at heq b4 f3 <;>
      simp only [Option.some.injEq, Prod.mk.injEq] at heq <;>
      obtain ⟨-, rfl⟩ := heq
    · exact ⟨⟨b1, b2, b3, b4, b5⟩, f1, f2, f3⟩
    · simp only [List.length_cons] at b4
      exact ⟨⟨b1, b2, b3, show rest.length ≤ MAX_POOL_SIZE by omega, b5⟩, f1, f2,
        fun n hn => f3 n (List.mem_cons_of_mem _ hn)⟩
  · exact absurd heq (by simp)

theorem swing_inv (epochVal locVal old new : Nat) (s : Cas) (h : Inv s) :
    Inv (Cas.swing epochVal locVal old new s).2.2 := by
  unfold Cas.swing
  split
  · have hs1 := alloc_reclaim_inv s h
    rcases hp : s.alloc_reclaim with ⟨r0, s1⟩
    rw [hp] at hs1
    simp only [hp]
    exact hs1
  · exact foldr_freeOwned_inv _ _ h

theorem applyCall_inv (s : Cas) (call : CasCall) (h : Inv s) : Inv (applyCall s call) := by
  cases call with
  | allocNode variant =>
    simp only [applyCall]
    rcases halloc : Cas.alloc_node variant s with - | ⟨nd, s'⟩
    · exact h
    · exact alloc_node_inv variant s h nd s' halloc
  | allocChild => exact alloc_child_inv s h
  | allocReclaim => exact alloc_reclaim_inv s h
  | freeNode node => exact free_node_inv node s h
  | freeChild child => exact free_child_inv child s h
  | freeReclaim reclaim => exact free_reclaim_inv reclaim s h
  | freeOnPass m =>
    obtain ⟨⟨b1, b2, b3, b4, b5⟩, f1, f2, f3⟩ := h
    unfold applyCall Cas.free_on_pass
    cases m <;> exact ⟨⟨b1, b2, b3, b4, b5⟩, f1, f2, f3⟩
  | freeOnFail m =>
    obtain ⟨⟨b1, b2, b3, b4, b5⟩, f1, f2, f3⟩ := h
    unfold applyCall Cas.free_on_fail
    cases m <;> exact ⟨⟨b1, b2, b3, b4, b5⟩, f1, f2, f3⟩
  | swing epochVal locVal old new => exact swing_inv epochVal locVal old new s h
  | garbageCollect gc_epoch => exact garbage_collect_inv gc_epoch s h

theorem applyCalls_inv (calls : List CasCall) (s : Cas) (h : Inv s) :
    Inv (applyCalls calls s) := by
  induction calls generalizing s with
  | nil => exact h
  | cons call rest ih => exact ih _ (applyCall_inv s call h)

theorem new_inv : Inv Cas.new := by
  refine ⟨⟨?_, ?_, ?_, ?_, ?_⟩, ?_, ?_, ?_⟩ <;> first | decide | (intro n hn; cases hn)

theorem alloc_node_t_fresh (s : Cas) (h : FreshPools s) (nd : Node) (s' : Cas)
    (heq : Cas.alloc_node 't' s = some (nd, s')) : nd = Node.trie 0 [] := by
  simp only [Cas.alloc_node] at heq
  rcases hp : s.node_trie_pool with _ | ⟨v, rest⟩ <;> rw [hp] at heq <;>
    simp only [Option.some.injEq, Prod.mk.injEq] at heq
  · exact heq.1.symm
  · exact heq.1 ▸ h.1 v (hp ▸ List.mem_cons_self v rest)

theorem alloc_node_l_fresh (s : Cas) (h : FreshPools s) (nd : Node) (s' : Cas)
    (heq : Cas.alloc_node 'l' s = some (nd, s')) : nd = Node.list [] := by
  simp only [Cas.alloc_node] at heq
  rcases hp : s.node_list_pool with _ | ⟨v, rest⟩ <;> rw [hp] at heq <;>
    simp only [Option.some.injEq, Prod.mk.injEq] at heq
  · exact heq.1.symm
  · exact heq.1 ▸ h.2.1 v (hp ▸ List.mem_cons_self v rest)

theorem alloc_node_b_shape (s : Cas) (h : FreshPools s) (nd : Node) (s' : Cas)
    (heq : Cas.alloc_node 'b' s = some (nd, s')) : ∃ item, nd = Node.tomb item := by
  simp only [Cas.alloc_node] at heq
  rcases hp : s.node_tomb_pool with _ | ⟨v, rest⟩ <;> rw [hp] at heq <;>
    simp only [Option.some.injEq, Prod.mk.injEq] at heq
  · exact ⟨Item.default, heq.1.symm⟩
  · obtain ⟨item, hv⟩ := h.2.2 v (hp ▸ List.mem_cons_self v rest)
    exact ⟨item, heq.1 ▸ hv⟩

/-- C5: across every sequence of sidecar calls starting from `Cas::new()`,
no pool ever exceeds `MAX_POOL_SIZE` (1024) entries; and a free arriving
at a full pool pushes nothing, changing only `n_frees`, by exactly 1. -/
theorem pool_cap :
    (∀ calls : List CasCall, PoolsBounded (applyCalls calls Cas.new))
    ∧ (∀ s bmp childs, s.node_trie_pool.length = MAX_POOL_SIZE →
        Cas.free_node (Node.trie bmp childs) s = { s with n_frees := s.n_frees + 1 })
    ∧ (∀ s items, s.node_list_pool.length = MAX_POOL_SIZE →
        Cas.free_node (Node.list items) s = { s with n_frees := s.n_frees + 1 })
    ∧ (∀ s item, s.node_tomb_pool.length = MAX_POOL_SIZE →
        Cas.free_node (Node.tomb item) s = { s with n_frees := s.n_frees + 1 })
    ∧ (∀ s child, s.child_pool.length = MAX_POOL_SIZE →
        Cas.free_child child s = { s with n_frees := s.n_frees + 1 })
    ∧ (∀ s reclaim, s.reclaim_pool.length = MAX_POOL_SIZE →
        Cas.free_reclaim reclaim s = { s with n_frees := s.n_frees + 1 }) := by
  refine ⟨fun calls => (applyCalls_inv calls Cas.new new_inv).1, ?_, ?_, ?_, ?_, ?_⟩
  · intro s bmp childs hlen
    simp only [Cas.free_node]
    rw [if_neg (by omega)]
  · intro s items hlen
    simp only [Cas.free_node]
    rw [if_neg (by omega)]
  · intro s item hlen
    simp only [Cas.free_node]
    rw [if_neg (by omega)]
  · intro s child hlen
    unfold Cas.free_child
    rw [if_neg (by omega)]
  · intro s reclaim hlen
    unfold Cas.free_reclaim
    rw [if_neg (by omega)]

/-- Witness for C5: a free into a full child pool only bumps `n_frees`. -/
theorem pool_cap_witness :
    Cas.free_child { pointer := 0 }
        { Cas.new with child_pool := List.replicate 1024 { pointer := 0 } } =
      { Cas.new with
          child_pool := List.replicate 1024 { pointer := 0 }, n_frees := 0 + 1 } :=
  pool_cap.2.2.2.2.1 _ { pointer := 0 } (List.length_replicate _ _)

/-- C6 counterexample: `free_node` does not reset a Tomb's embedded item
(`Node::Tomb { .. } =>` in `src/gc.rs` clears nothing), so the next
`alloc_node('b')` returns the pooled Tomb still carrying item `(1, 2)`,
not a default-item Tomb as the claim requires. -/
theorem tomb_item_not_reset :
    (Cas.alloc_node 'b' (Cas.free_node (Node.tomb { key := 1, value := 2 }) Cas.new)).map
        Prod.fst = some (Node.tomb { key := 1, value := 2 })
    ∧ Node.tomb { key := 1, value := 2 } ≠ Node.tomb Item.default := by
  refine ⟨by decide, by decide⟩

/-- C6 (amended): `free_node` resets a Trie (`bmp := 0`, `childs`
cleared) and a List (`items` cleared) before pooling but pushes a Tomb
with its item untouched; consequently, after any call sequence from
`Cas::new()`, `alloc_node('t')` always returns a Trie with `bmp = 0` and
no children and `alloc_node('l')` a List with no items, while
`alloc_node('b')` returns a Tomb of some item — the default one only when
heap-allocated, otherwise whatever item the pooled Tomb retained. -/
theorem free_node_reset_alloc_fresh :
    (∀ s bmp childs, s.node_trie_pool.length < MAX_POOL_SIZE →
        Cas.free_node (Node.trie bmp childs) s
          = { s with node_trie_pool := Node.trie 0 [] :: s.node_trie_pool })
    ∧ (∀ s items, s.node_list_pool.length < MAX_POOL_SIZE →
        Cas.free_node (Node.list items) s
          = { s with node_list_pool := Node.list [] :: s.node_list_pool })
    ∧ (∀ s item, s.node_tomb_pool.length < MAX_POOL_SIZE →
        Cas.free_node (Node.tomb item) s
          = { s with node_tomb_pool := Node.tomb item :: s.node_tomb_pool })
    ∧ (∀ calls nd s', Cas.alloc_node 't' (applyCalls calls Cas.new) = some (nd, s') →
        nd = Node.trie 0 [])
    ∧ (∀ calls nd s', Cas.alloc_node 'l' (applyCalls calls Cas.new) = some (nd, s') →
        nd = Node.list [])
    ∧ (∀ calls nd s', Cas.alloc_node 'b' (applyCalls calls Cas.new) = some (nd, s') →
        ∃ item, nd = Node.tomb item) := by
  refine ⟨?_, ?_, ?_, ?_, ?_, ?_⟩
  · intro s bmp childs hlen
    simp only [Cas.free_node]
    rw [if_pos hlen]
  · intro s items hlen
    simp only [Cas.free_node]
    rw [if_pos hlen]
  · intro s item hlen
    simp only [Cas.free_node]
    rw [if_pos hlen]
  · intro calls nd s' heq
    exact alloc_node_t_fresh _ (applyCalls_inv calls Cas.new new_inv).2 nd s' heq
  · intro calls nd s' heq
    exact alloc_node_l_fresh _ (applyCalls_inv calls Cas.new new_inv).2 nd s' heq
  · intro calls nd s' heq
    exact alloc_node_b_shape _ (applyCalls_inv calls Cas.new new_inv).2 nd s' heq

/-- Witness for C6 (amended): freeing a non-default Tomb pools it with
its item intact. -/
theorem free_node_reset_alloc_fresh_witness :
    Cas.free_node (Node.tomb { key := 1, value := 2 }) Cas.new
      = { Cas.new with node_tomb_pool := [Node.tomb { key := 1, value := 2 }] } :=
  free_node_reset_alloc_fresh.2.2.1 Cas.new { key := 1, value := 2 } (by decide)

end Chamt

